import Mathlib

/-!
# whatgotdone: the recent-entries feed

A shallow embedding of `backend/handlers/recent_entries.go`.

Modelling conventions:

* a Go `string` is the list of its bytes (`GoString`); `len(s)` is the length
  of that list, `==` is equality of the lists and the operators `<` and `>` are
  the byte-wise lexicographic comparison `goStringLess`; `str` gives the bytes
  of a string literal; texts that the handler only writes (error messages, the
  encoded body) are Lean strings;
* a Go slice is a Lean `List`; where the difference between a nil slice and an
  empty one is observable (JSON encoding) the value is an `Option (List _)`,
  `none` being the nil slice;
* a call returning `(value, error)` is an `Except String _`;
* a run-time panic of the handler is the result `none`;
* `sort.Slice` belongs to the Go standard library: the handler takes it as the
  parameter `sortSlice`; `insertionSort` is the algorithm the library runs on
  short slices.
-/

namespace WhatGotDone

/-! ## Go primitives -/

/-- A Go string: its bytes, each a number below 256. -/
abbrev GoString := List Nat

/-- The Go string written as the literal `s`: the bytes of its UTF-8
encoding. -/
def str (s : String) : GoString :=
  (s.data.flatMap String.utf8EncodeChar).map UInt8.toNat

/-- Go's `a < b` on strings: byte-wise lexicographic comparison, `true` when
`a` is strictly smaller. -/
def goStringLess : GoString → GoString → Bool
  | _, [] => false
  | [], _ :: _ => true
  | a :: as, b :: bs =>
    if a < b then true
    else if b < a then false
    else goStringLess as bs

/-- Go's `len(s)` on a string: its length in bytes. -/
def goLen (s : GoString) : Nat :=
  s.length

/-- Swap of `l[i]` and `l[j]`, the Go statement `l[i], l[j] = l[j], l[i]`;
`none` when an index is out of range (a run-time panic in Go). -/
def swapAt {α : Type} (l : List α) (i j : Int) : Option (List α) :=
  if 0 ≤ i ∧ 0 ≤ j then
    match l[i.toNat]?, l[j.toNat]? with
    | some a, some b => some ((l.set i.toNat b).set j.toNat a)
    | _, _ => none
  else none

/-- Inner loop of Go's `insertionSort_func`: the element `x` moves left while
it is `less` than its left neighbour. The sorted prefix is passed in reverse,
nearest neighbour first. -/
def sinkInto {α : Type} (less : α → α → Bool) (x : α) : List α → List α
  | [] => [x]
  | y :: ys => if less x y then y :: sinkInto less x ys else x :: y :: ys

/-- Outer loop of Go's `insertionSort_func`: `acc` is the sorted prefix in
reverse, the second argument is the part of the slice not yet visited. -/
def insertionSortAux {α : Type} (less : α → α → Bool) : List α → List α → List α
  | acc, [] => acc.reverse
  | acc, x :: xs => insertionSortAux less (sinkInto less x acc) xs

/-- Go's `insertionSort_func` over a whole slice. `sort.Slice` runs exactly
this on slices of at most six elements (and, since Go 1.19, of at most
twelve). -/
def insertionSort {α : Type} (less : α → α → Bool) (l : List α) : List α :=
  insertionSortAux less [] l

/-! ## Data model -/

/-- The type `types.JournalEntry`, as the handlers and their tests use it. -/
structure JournalEntry where
  Date : GoString
  LastModified : GoString
  Markdown : GoString
  deriving DecidableEq, Repr

/-- The type `recentEntry`; `lastModified` is unexported, so the JSON encoder
skips it. -/
structure recentEntry where
  Author : GoString
  Date : GoString
  lastModified : GoString
  Markdown : GoString
  deriving DecidableEq, Repr

/-- The two datastore calls the handler makes: `Users()` and
`GetEntries(username)`. -/
structure Datastore where
  Users : Except String (List GoString)
  GetEntries : GoString → Except String (List JournalEntry)

/-- The query parameters of a request to `/api/recentEntries`. -/
structure Request where
  start : GoString
  limit : GoString
  deriving DecidableEq, Repr

/-- What a handler wrote as the body: a plain-text message (`http.Error`) or
the value handed to `json.NewEncoder(w).Encode`. -/
inductive Body where
  | text (msg : String)
  | json (v : Option (List recentEntry))
  deriving DecidableEq, Repr

/-- Status code and body of a response. -/
structure Response where
  status : Nat
  body : Body
  deriving DecidableEq, Repr

def StatusOK : Nat := 200

def StatusBadRequest : Nat := 400

def StatusInternalServerError : Nat := 500

/-- The call `http.Error(w, msg, code)`. -/
def httpError (msg : String) (code : Nat) : Response :=
  { status := code, body := Body.text msg }

/-! ## The handler -/

def minimumRelevantLength : Nat := 30

def maxEntries : Nat := 15

/-- The inner loop of `recentEntriesGet`: every entry of one user whose
Markdown is not shorter than `minimumRelevantLength` is appended to
`entries`. -/
def appendRelevant (username : GoString) :
    List recentEntry → List JournalEntry → List recentEntry
  | entries, [] => entries
  | entries, entry :: rest =>
    if goLen entry.Markdown < minimumRelevantLength then
      appendRelevant username entries rest
    else
      appendRelevant username
        (entries ++ [{ Author := username, Date := entry.Date,
                       lastModified := entry.LastModified,
                       Markdown := entry.Markdown }]) rest

/-- The outer loop of `recentEntriesGet` over the usernames; the first
failing `GetEntries` ends it with that error. -/
def collectEntries (s : Datastore) :
    List GoString → List recentEntry → Except String (List recentEntry)
  | [], entries => Except.ok entries
  | username :: rest, entries =>
    match s.GetEntries username with
    | Except.error err => Except.error err
    | Except.ok userEntries =>
      collectEntries s rest (appendRelevant username entries userEntries)

/-- The `less` closure handed to `sort.Slice`. -/
def entryLess (a b : recentEntry) : Bool :=
  if goStringLess a.Date b.Date then true
  else if goStringLess b.Date a.Date then false
  else goStringLess a.lastModified b.lastModified

/-- The loop `for i := ...; i >= 0; i--` that reverses `entries`. The first
argument is `i + 1`, so `0` stands for `i = -1`, where the loop ends. -/
def reverseLoop {α : Type} : Nat → List α → Option (List α)
  | 0, entries => some entries
  | i + 1, entries =>
    let opp : Int := (entries.length : Int) - 1 - (i : Int)
    match swapAt entries (i : Int) opp with
    | none => none
    | some entries' => reverseLoop i entries'

/-- The reversal of `recentEntriesGet`: the loop starts at
`i = len(entries)/2 - 1`. -/
def reverseEntries {α : Type} (entries : List α) : Option (List α) :=
  reverseLoop (entries.length / 2) entries

/-- The handler `recentEntriesGet`. `sortSlice less entries` is the slice
after `sort.Slice(entries, less)`. The request is never read. The result is
`none` when the handler panics. -/
def recentEntriesGet
    (sortSlice : (recentEntry → recentEntry → Bool) → List recentEntry → List recentEntry)
    (s : Datastore) (_r : Request) : Option Response :=
  match s.Users with
  | Except.error _ =>
    some (httpError "Failed to retrieve users" StatusInternalServerError)
  | Except.ok users =>
    match collectEntries s users [] with
    | Except.error _ =>
      some (httpError "Failed to retrieve users" StatusInternalServerError)
    | Except.ok entries =>
      match reverseEntries (sortSlice entryLess entries) with
      | none => none
      | some entries =>
        let entries :=
          if entries.length > maxEntries then entries.take maxEntries else entries
        some { status := StatusOK, body := Body.json (some entries) }

/-! ## The JSON encoder -/

/-- JSON object of one `recentEntry`, with the exported fields only; `quote`
is the encoder's rendering of a string. -/
def encodeEntry (quote : GoString → String) (e : recentEntry) : String :=
  "\x7b\"author\":" ++ quote e.Author ++ ",\"date\":" ++ quote e.Date ++
    ",\"markdown\":" ++ quote e.Markdown ++ "\x7d"

/-- What `json.NewEncoder(w).Encode(v)` writes for a slice of `recentEntry`:
`null` for the nil slice, an array otherwise, then a newline. -/
def encodeEntries (quote : GoString → String) : Option (List recentEntry) → String
  | none => "null\n"
  | some l => "[" ++ ",".intercalate (l.map (encodeEntry quote)) ++ "]\n"

/-- The bytes of the response body. -/
def Response.wire (quote : GoString → String) (resp : Response) : String :=
  match resp.body with
  | Body.text msg => msg ++ "\n"
  | Body.json v => encodeEntries quote v

/-! ## Test data of `recent_entries_test.go` -/

/-- The `mockDatastore` of the tests: every user has the same entries and no
call fails. -/
def mockDatastore (journalEntries : List JournalEntry) (users : List GoString) : Datastore :=
  { Users := Except.ok users, GetEntries := fun _ => Except.ok journalEntries }

/-- The six entries of `TestRecentEntriesObservesStartAndLimitParameters`. -/
def paginationEntries : List JournalEntry :=
  [ { Date := str "2019-05-10", LastModified := str "2019-05-25T06:00:00.000Z", Markdown := str "Read the news today... Oh boy!" },
    { Date := str "2019-05-03", LastModified := str "2019-05-16T00:00:00.000Z", Markdown := str "Took a nap and dreamed about chocolate" },
    { Date := str "2019-04-26", LastModified := str "2019-05-25T00:00:00.000Z", Markdown := str "Read a book about the history of cheese" },
    { Date := str "2019-04-19", LastModified := str "2019-05-17T12:00:00.000Z", Markdown := str "Saw a movie about French vanilla" },
    { Date := str "2019-04-12", LastModified := str "2019-05-23T00:00:00.000Z", Markdown := str "Ate some crackers in a bathtub" },
    { Date := str "2019-04-05", LastModified := str "2019-05-24T00:00:00.000Z", Markdown := str "Rode the bus and saw a movie about ghosts" } ]

/-- The feed of `paginationEntries` for the single user `bob`, newest first. -/
def paginationFeed : List recentEntry :=
  [ { Author := str "bob", Date := str "2019-05-10", lastModified := str "2019-05-25T06:00:00.000Z", Markdown := str "Read the news today... Oh boy!" },
    { Author := str "bob", Date := str "2019-05-03", lastModified := str "2019-05-16T00:00:00.000Z", Markdown := str "Took a nap and dreamed about chocolate" },
    { Author := str "bob", Date := str "2019-04-26", lastModified := str "2019-05-25T00:00:00.000Z", Markdown := str "Read a book about the history of cheese" },
    { Author := str "bob", Date := str "2019-04-19", lastModified := str "2019-05-17T12:00:00.000Z", Markdown := str "Saw a movie about French vanilla" },
    { Author := str "bob", Date := str "2019-04-12", lastModified := str "2019-05-23T00:00:00.000Z", Markdown := str "Ate some crackers in a bathtub" },
    { Author := str "bob", Date := str "2019-04-05", lastModified := str "2019-05-24T00:00:00.000Z", Markdown := str "Rode the bus and saw a movie about ghosts" } ]

/-- The four entries of
`TestRecentEntriesHandlerAlwaysPlacesNewDatesAheadOfOldDates`. -/
def newDatesEntries : List JournalEntry :=
  [ { Date := str "2019-05-17", LastModified := str "2019-09-28T12:00:00.000Z", Markdown := str "Made a hat out of donuts from the cloud in the sky" },
    { Date := str "2019-09-20", LastModified := str "2019-09-25T00:00:00.000Z", Markdown := str "High fived a platypus when the apple hits the pie." },
    { Date := str "2019-09-06", LastModified := str "2019-09-22T00:00:00.000Z", Markdown := str "Ate an apple in a single bite of choclate" },
    { Date := str "2019-09-20", LastModified := str "2019-09-20T00:00:00.000Z", Markdown := str "Attended an Indie Hackers meetup" } ]

/-- Two entries on the two sides of the relevance threshold: the Markdown of
the first has 29 bytes, that of the second 30. -/
def boundaryEntries : List JournalEntry :=
  [ { Date := str "2019-05-10", LastModified := str "2019-05-25T06:00:00.000Z", Markdown := str "Read the news today... Oh boy" },
    { Date := str "2019-05-03", LastModified := str "2019-05-16T00:00:00.000Z", Markdown := str "Read the news today... Oh boy!" } ]

/-- Sixteen publication dates, oldest first. -/
def sixteenDates : List String :=
  [ "2019-01-04", "2019-01-11", "2019-01-18", "2019-01-25",
    "2019-02-01", "2019-02-08", "2019-02-15", "2019-02-22",
    "2019-03-01", "2019-03-08", "2019-03-15", "2019-03-22",
    "2019-03-29", "2019-04-05", "2019-04-12", "2019-04-19" ]

/-- One entry per date of `sixteenDates`, each with a Markdown of 41
bytes. -/
def sixteenEntries : List JournalEntry :=
  sixteenDates.map (fun d =>
    { Date := str d, LastModified := str (d ++ "T12:00:00.000Z"),
      Markdown := str ("Finished the weekly update of " ++ d ++ ".") })

/-- The feed of `sixteenEntries` for the single user `bob`, newest first. -/
def sixteenFeed : List recentEntry :=
  sixteenDates.reverse.map (fun d =>
    { Author := str "bob", Date := str d, lastModified := str (d ++ "T12:00:00.000Z"),
      Markdown := str ("Finished the weekly update of " ++ d ++ ".") })

/-- One entry whose Markdown, of 9 bytes, is below the relevance
threshold. -/
def shortEntries : List JournalEntry :=
  [ { Date := str "2019-05-10", LastModified := str "2019-05-25T06:00:00.000Z", Markdown := str "Test post" } ]

/-- A datastore that lists `alice` and `bob`, returns the six pagination
entries for `alice` and fails on `bob`. -/
def failingDatastore : Datastore :=
  { Users := Except.ok [str "alice", str "bob"],
    GetEntries := fun u =>
      if u = str "bob" then Except.error "datastore unavailable"
      else Except.ok paginationEntries }

/-- Two entries of different authors that share Date and lastModified. -/
def tiedEntries : List recentEntry :=
  [ { Author := str "alice", Date := str "2019-05-24", lastModified := str "2019-05-24T00:00:00.000Z", Markdown := str "Rode the bus and saw a movie about ghosts" },
    { Author := str "bob", Date := str "2019-05-24", lastModified := str "2019-05-24T00:00:00.000Z", Markdown := str "Read a book about the history of cheese" } ]

/-- The descending comparator of the second formulation of the Feed Sorter in
the specification: primary key Date descending, secondary key lastModified
descending. -/
def entryGreater (a b : recentEntry) : Bool :=
  if goStringLess b.Date a.Date then true
  else if goStringLess a.Date b.Date then false
  else goStringLess b.lastModified a.lastModified

/-- The reversal loop of `recentEntriesGet` together with the record of its
swaps: the pairs `(i, opp)` of swapped positions, in the order the loop visits
them. The first argument is `i + 1`, as in `reverseLoop`. -/
def reverseLoopTrace {α : Type} : Nat → List α → Option (List α × List (Int × Int))
  | 0, entries => some (entries, [])
  | i + 1, entries =>
    let opp : Int := (entries.length : Int) - 1 - (i : Int)
    match swapAt entries (i : Int) opp with
    | none => none
    | some entries' =>
      match reverseLoopTrace i entries' with
      | none => none
      | some (result, swaps) => some (result, ((i : Int), opp) :: swaps)

/-- The reversal of `recentEntriesGet` with the record of its swaps: the loop
starts at `i = len(entries)/2 - 1`. -/
def reverseEntriesTrace {α : Type} (entries : List α) : Option (List α × List (Int × Int)) :=
  reverseLoopTrace (entries.length / 2) entries

/-! ## The contract of `sort.Slice` -/

/-- What `sort.Slice(entries, less)` guarantees for a comparator that is a
strict weak ordering: the slice afterwards is a rearrangement of the slice
before, and no element is `less` than an element placed before it. The order
of elements that compare equal is not fixed (the sort is not stable). -/
def SortContract {α : Type} (sortSlice : (α → α → Bool) → List α → List α)
    (less : α → α → Bool) : Prop :=
  ∀ l : List α, (sortSlice less l).Perm l ∧
    (sortSlice less l).Pairwise (fun a b => less b a = false)

/-- The `recentEntry` the handler builds from one entry of `username`. -/
def authored (username : GoString) (entry : JournalEntry) : recentEntry :=
  { Author := username, Date := entry.Date, lastModified := entry.LastModified,
    Markdown := entry.Markdown }

/-- The relevance test of the handler, as a Boolean: the entry is not skipped
by `if len(entry.Markdown) < minimumRelevantLength`. -/
def isRelevant (entry : JournalEntry) : Bool :=
  !decide (goLen entry.Markdown < minimumRelevantLength)

/-! ## Strings and the comparator -/

theorem goStringLess_iff (a b : GoString) : goStringLess a b = true ↔ a < b := by
  induction a generalizing b with
  | nil =>
    cases b with
    | nil => simp [goStringLess]
    | cons y ys => simpa [goStringLess] using List.nil_lt_cons y ys
  | cons x xs ih =>
    cases b with
    | nil => simp [goStringLess]
    | cons y ys =>
      simp only [goStringLess]
      by_cases h1 : x < y
      · have hl : x :: xs < y :: ys := List.Lex.rel h1
        simpa [h1] using hl
      · by_cases h2 : y < x
        · have hn : ¬ (x :: xs < y :: ys) := by
            intro h
            cases h with
            | cons h => exact lt_irrefl _ h2
            | rel h => exact h1 h
          simpa [h1, h2] using hn
        · have hxy : x = y := le_antisymm (not_lt.mp h2) (not_lt.mp h1)
          subst hxy
          simp only [h1, if_false, ih]
          constructor
          · intro h
            exact List.Lex.cons h
          · intro h
            cases h with
            | cons h => exact h
            | rel h => exact absurd h h1

theorem goStringLess_false_iff (a b : GoString) : goStringLess a b = false ↔ b ≤ a := by
  rw [← not_lt, ← goStringLess_iff]
  simp

theorem entryLess_iff (a b : recentEntry) :
    entryLess a b = true ↔
      a.Date < b.Date ∨ (a.Date = b.Date ∧ a.lastModified < b.lastModified) := by
  unfold entryLess
  by_cases h1 : a.Date < b.Date
  · simp [(goStringLess_iff _ _).mpr h1, h1]
  · have h1' : goStringLess a.Date b.Date = false := by
      rw [goStringLess_false_iff]; exact not_lt.mp h1
    by_cases h2 : b.Date < a.Date
    · have hne : a.Date ≠ b.Date := fun h => by rw [h] at h2; exact lt_irrefl _ h2
      simp [h1', (goStringLess_iff _ _).mpr h2, h1, hne]
    · have h2' : goStringLess b.Date a.Date = false := by
        rw [goStringLess_false_iff]; exact not_lt.mp h2
      have heq : a.Date = b.Date := le_antisymm (not_lt.mp h2) (not_lt.mp h1)
      simp [h1', h2', h1, heq, goStringLess_iff]

theorem entryLess_false_iff (a b : recentEntry) :
    entryLess a b = false ↔
      b.Date < a.Date ∨ (a.Date = b.Date ∧ b.lastModified ≤ a.lastModified) := by
  rw [← Bool.not_eq_true, entryLess_iff]
  constructor
  · intro h
    rcases lt_trichotomy a.Date b.Date with h1 | h1 | h1
    · exact absurd (Or.inl h1) h
    · right
      refine ⟨h1, not_lt.mp ?_⟩
      intro h2
      exact h (Or.inr ⟨h1, h2⟩)
    · exact Or.inl h1
  · rintro (h | ⟨h1, h2⟩) (h3 | ⟨h3, h4⟩)
    · exact lt_asymm h h3
    · rw [h3] at h; exact lt_irrefl _ h
    · rw [h1] at h3; exact lt_irrefl _ h3
    · exact not_lt.mpr h2 h4

theorem entryLess_asymm (a b : recentEntry) (h : entryLess a b = true) :
    entryLess b a = false := by
  rw [entryLess_false_iff]
  rw [entryLess_iff] at h
  rcases h with h | ⟨h1, h2⟩
  · exact Or.inl h
  · exact Or.inr ⟨h1.symm, le_of_lt h2⟩

theorem entryLess_negTrans (a b c : recentEntry) (h1 : entryLess a b = false)
    (h2 : entryLess b c = false) : entryLess a c = false := by
  rw [entryLess_false_iff] at h1 h2 ⊢
  rcases h1 with h1 | ⟨h1, h1'⟩
  · rcases h2 with h2 | ⟨h2, _⟩
    · exact Or.inl (lt_trans h2 h1)
    · left; rw [← h2]; exact h1
  · rcases h2 with h2 | ⟨h2, h2'⟩
    · left; rw [h1]; exact h2
    · exact Or.inr ⟨h1.trans h2, le_trans h2' h1'⟩

/-! ## Insertion sort meets the contract -/

theorem sinkInto_perm {α : Type} (less : α → α → Bool) (x : α) (acc : List α) :
    (sinkInto less x acc).Perm (x :: acc) := by
  induction acc with
  | nil => exact List.Perm.refl _
  | cons y ys ih =>
    simp only [sinkInto]
    split
    · exact ((List.Perm.cons y ih).trans (List.Perm.swap x y ys))
    · exact List.Perm.refl _

theorem sinkInto_pairwise {α : Type} (less : α → α → Bool)
    (hasymm : ∀ a b, less a b = true → less b a = false)
    (hneg : ∀ a b c, less a b = false → less b c = false → less a c = false)
    (x : α) (acc : List α) (h : acc.Pairwise (fun a b => less a b = false)) :
    (sinkInto less x acc).Pairwise (fun a b => less a b = false) := by
  induction acc with
  | nil => simp [sinkInto]
  | cons y ys ih =>
    rw [List.pairwise_cons] at h
    simp only [sinkInto]
    by_cases hxy : less x y = true
    · rw [if_pos hxy, List.pairwise_cons]
      refine ⟨?_, ih h.2⟩
      intro z hz
      rcases (List.mem_cons.mp ((sinkInto_perm less x ys).mem_iff.mp hz)) with hz | hz
      · rw [hz]; exact hasymm x y hxy
      · exact h.1 z hz
    · rw [if_neg hxy]
      have hxy' : less x y = false := by simpa using hxy
      rw [List.pairwise_cons]
      refine ⟨?_, List.pairwise_cons.mpr h⟩
      intro z hz
      rcases List.mem_cons.mp hz with hz | hz
      · rw [hz]; exact hxy'
      · exact hneg x y z hxy' (h.1 z hz)

theorem insertionSortAux_perm {α : Type} (less : α → α → Bool) (l : List α) :
    ∀ acc : List α, (insertionSortAux less acc l).Perm (acc ++ l) := by
  induction l with
  | nil =>
    intro acc
    simp [insertionSortAux]
  | cons x xs ih =>
    intro acc
    simp only [insertionSortAux]
    refine (ih (sinkInto less x acc)).trans ?_
    refine ((sinkInto_perm less x acc).append_right xs).trans ?_
    exact (List.perm_middle.symm)

theorem insertionSortAux_pairwise {α : Type} (less : α → α → Bool)
    (hasymm : ∀ a b, less a b = true → less b a = false)
    (hneg : ∀ a b c, less a b = false → less b c = false → less a c = false)
    (l : List α) :
    ∀ acc : List α, acc.Pairwise (fun a b => less a b = false) →
      (insertionSortAux less acc l).Pairwise (fun a b => less b a = false) := by
  induction l with
  | nil =>
    intro acc h
    simpa [insertionSortAux, List.pairwise_reverse] using h
  | cons x xs ih =>
    intro acc h
    simp only [insertionSortAux]
    exact ih _ (sinkInto_pairwise less hasymm hneg x acc h)

theorem insertionSort_contract {α : Type} (less : α → α → Bool)
    (hasymm : ∀ a b, less a b = true → less b a = false)
    (hneg : ∀ a b c, less a b = false → less b c = false → less a c = false) :
    SortContract insertionSort less := by
  intro l
  refine ⟨?_, ?_⟩
  · exact insertionSortAux_perm less l []
  · exact insertionSortAux_pairwise less hasymm hneg l [] List.Pairwise.nil

theorem insertionSort_entryLess : SortContract insertionSort entryLess :=
  insertionSort_contract entryLess entryLess_asymm entryLess_negTrans

/-! ## The reversal loop -/

theorem swapAt_of_lt {α : Type} (l : List α) (i j : Nat) (hi : i < l.length)
    (hj : j < l.length) :
    swapAt l (i : Int) (j : Int) = some ((l.set i l[j]).set j l[i]) := by
  unfold swapAt
  have h0 : (0 : Int) ≤ (i : Int) ∧ (0 : Int) ≤ (j : Int) := ⟨by omega, by omega⟩
  rw [if_pos h0]
  simp only [Int.toNat_ofNat]
  rw [List.getElem?_eq_getElem hi, List.getElem?_eq_getElem hj]

/-- After the iterations `i = k - 1, ..., 0` the outer `k` positions on each
side are mirrored and the middle is untouched; no iteration panics. -/
theorem reverseLoop_spec {α : Type} (k : Nat) :
    ∀ es : List α, 2 * k ≤ es.length →
      ∃ r, reverseLoop k es = some r ∧ r.length = es.length ∧
        ∀ j, j < es.length →
          r[j]? = if j < k ∨ es.length - k ≤ j then es[es.length - 1 - j]? else es[j]? := by
  induction k with
  | zero =>
    intro es _
    refine ⟨es, rfl, rfl, ?_⟩
    intro j hj
    have hmid : ¬ (j < 0 ∨ es.length - 0 ≤ j) := by omega
    rw [if_neg hmid]
  | succ k ih =>
    intro es hk
    have hi : k < es.length := by omega
    have hopp : es.length - 1 - k < es.length := by omega
    have hcast : (es.length : Int) - 1 - (k : Int) = ((es.length - 1 - k : Nat) : Int) := by
      omega
    obtain ⟨r, hr, hlen, hget⟩ :=
      ih ((es.set k es[es.length - 1 - k]).set (es.length - 1 - k) es[k])
        (by simp only [List.length_set]; omega)
    simp only [List.length_set] at hlen hget
    refine ⟨r, ?_, hlen, ?_⟩
    · simp only [reverseLoop]
      rw [hcast, swapAt_of_lt es k (es.length - 1 - k) hi hopp]
      exact hr
    · intro j hj
      rw [hget j hj]
      simp only [List.getElem?_set, List.length_set]
      by_cases h1 : j < k ∨ es.length - k ≤ j
      · have e1 : ¬ (es.length - 1 - k = es.length - 1 - j) := by omega
        have e2 : ¬ (k = es.length - 1 - j) := by omega
        have e3 : j < k + 1 ∨ es.length - (k + 1) ≤ j := by omega
        rw [if_pos h1, if_neg e1, if_neg e2, if_pos e3]
      · rw [if_neg h1]
        by_cases h2 : j = k
        · subst h2
          have e1 : ¬ (es.length - 1 - j = j) := by omega
          have e3 : j < j + 1 ∨ es.length - (j + 1) ≤ j := by omega
          rw [if_neg e1, if_pos rfl, if_pos hi, if_pos e3, List.getElem?_eq_getElem hopp]
        · by_cases h3 : j = es.length - 1 - k
          · have e3 : j < k + 1 ∨ es.length - (k + 1) ≤ j := by omega
            have e4 : es.length - 1 - j = k := by omega
            rw [if_pos h3.symm, if_pos hopp, if_pos e3, e4, List.getElem?_eq_getElem hi]
          · have e1 : ¬ (es.length - 1 - k = j) := by omega
            have e2 : ¬ (k = j) := by omega
            have e3 : ¬ (j < k + 1 ∨ es.length - (k + 1) ≤ j) := by omega
            rw [if_neg e1, if_neg e2, if_neg e3]

theorem reverseEntries_eq {α : Type} (es : List α) :
    reverseEntries es = some es.reverse := by
  obtain ⟨r, hr, hlen, hget⟩ := reverseLoop_spec (es.length / 2) es (by omega)
  unfold reverseEntries
  rw [hr]
  congr 1
  apply List.ext_getElem?
  intro j
  by_cases hj : j < es.length
  · rw [hget j hj, List.getElem?_reverse hj]
    by_cases h1 : j < es.length / 2 ∨ es.length - es.length / 2 ≤ j
    · rw [if_pos h1]
    · rw [if_neg h1]
      have hmid : es.length - 1 - j = j := by omega
      rw [hmid]
  · rw [List.getElem?_eq_none (by omega), List.getElem?_eq_none (by simp; omega)]

/-! ## The merge loops -/

theorem appendRelevant_eq (username : GoString) (userEntries : List JournalEntry) :
    ∀ entries : List recentEntry,
      appendRelevant username entries userEntries =
        entries ++ (userEntries.filter isRelevant).map (authored username) := by
  induction userEntries with
  | nil => intro entries; simp [appendRelevant]
  | cons entry rest ih =>
    intro entries
    simp only [appendRelevant]
    by_cases h : goLen entry.Markdown < minimumRelevantLength
    · rw [if_pos h, ih]
      have hr : isRelevant entry = false := by simp [isRelevant, h]
      rw [List.filter_cons_of_neg (by simp [hr])]
    · rw [if_neg h, ih]
      have hr : isRelevant entry = true := by simp [isRelevant, h]
      rw [List.filter_cons_of_pos hr]
      simp [authored]

/-- When every fetch succeeds the loops build the concatenation of the users'
relevant entries. -/
theorem collectEntries_ok (s : Datastore) (userEntries : GoString → List JournalEntry)
    (users : List GoString) :
    ∀ entries : List recentEntry,
      (∀ u ∈ users, s.GetEntries u = Except.ok (userEntries u)) →
      collectEntries s users entries =
        Except.ok (entries ++ users.flatMap
          (fun u => ((userEntries u).filter isRelevant).map (authored u))) := by
  induction users with
  | nil => intro entries _; simp [collectEntries]
  | cons u rest ih =>
    intro entries h
    simp only [collectEntries]
    rw [h u (List.mem_cons_self u rest)]
    simp only
    rw [ih _ (fun v hv => h v (List.mem_cons_of_mem u hv)), appendRelevant_eq]
    simp [List.flatMap_cons]

/-- The loops end with an error exactly when some listed user's fetch fails. -/
theorem collectEntries_error_iff (s : Datastore) (users : List GoString) :
    ∀ entries : List recentEntry,
      (∃ err, collectEntries s users entries = Except.error err) ↔
        ∃ u ∈ users, ∃ err, s.GetEntries u = Except.error err := by
  induction users with
  | nil => intro entries; simp [collectEntries]
  | cons u rest ih =>
    intro entries
    simp only [collectEntries]
    cases hu : s.GetEntries u with
    | error e =>
      simp only
      constructor
      · intro _
        exact ⟨u, List.mem_cons_self u rest, e, hu⟩
      · intro _
        exact ⟨e, rfl⟩
    | ok es =>
      simp only
      rw [ih]
      constructor
      · rintro ⟨v, hv, e, he⟩
        exact ⟨v, List.mem_cons_of_mem u hv, e, he⟩
      · rintro ⟨v, hv, e, he⟩
        rcases List.mem_cons.mp hv with hv | hv
        · rw [hv, hu] at he; cases he
        · exact ⟨v, hv, e, he⟩

/-- The cut `entries[:maxEntries]` of the handler. -/
theorem capped_eq (entries : List recentEntry) :
    (if entries.length > maxEntries then entries.take maxEntries else entries) =
      entries.take maxEntries := by
  split
  · rfl
  · rw [List.take_of_length_le (by omega)]

/-- The response once the usernames and every user's entries were fetched. -/
theorem recentEntriesGet_of_collected
    (sortSlice : (recentEntry → recentEntry → Bool) → List recentEntry → List recentEntry)
    (s : Datastore) (r : Request) (users : List GoString) (merged : List recentEntry)
    (hUsers : s.Users = Except.ok users)
    (hmerged : collectEntries s users [] = Except.ok merged) :
    recentEntriesGet sortSlice s r =
      some { status := StatusOK,
             body := Body.json (some ((sortSlice entryLess merged).reverse.take maxEntries)) } := by
  unfold recentEntriesGet
  rw [hUsers]
  simp only
  rw [hmerged]
  simp only
  rw [reverseEntries_eq]
  simp only [capped_eq]

/-- Membership in the merged collection, without any assumption on the
fetches: whatever the loops return holds only relevant entries. -/
theorem collectEntries_relevant (s : Datastore) (users : List GoString) :
    ∀ entries merged : List recentEntry,
      collectEntries s users entries = Except.ok merged →
      (∀ e ∈ entries, minimumRelevantLength ≤ goLen e.Markdown) →
      ∀ e ∈ merged, minimumRelevantLength ≤ goLen e.Markdown := by
  induction users with
  | nil =>
    intro entries merged h hacc
    simp only [collectEntries] at h
    cases h
    exact hacc
  | cons u rest ih =>
    intro entries merged h hacc
    simp only [collectEntries] at h
    cases hu : s.GetEntries u with
    | error e => rw [hu] at h; cases h
    | ok es =>
      rw [hu] at h
      simp only at h
      refine ih _ merged h ?_
      intro e he
      rw [appendRelevant_eq, List.mem_append] at he
      rcases he with he | he
      · exact hacc e he
      · obtain ⟨j, hj, rfl⟩ := List.mem_map.mp he
        have hrel : isRelevant j = true := (List.mem_filter.mp hj).2
        simp only [isRelevant, Bool.not_eq_true', decide_eq_false_iff_not, not_lt] at hrel
        exact hrel

/-! ## Uniqueness of the sorted arrangement -/

theorem insertionSort_entryGreater : SortContract insertionSort entryGreater :=
  insertionSort_contract entryGreater (fun a b h => entryLess_asymm b a h)
    (fun a b c h1 h2 => entryLess_negTrans c b a h2 h1)

/-- Two arrangements of the same elements that are both ordered by `R` are
equal when `R` is antisymmetric on these elements. -/
theorem eq_of_perm_of_pairwise {α : Type} (R : α → α → Prop) :
    ∀ l1 l2 : List α, l1.Perm l2 → l1.Pairwise R → l2.Pairwise R →
      (∀ a ∈ l1, ∀ b ∈ l1, R a b → R b a → a = b) → l1 = l2 := by
  intro l1
  induction l1 with
  | nil =>
    intro l2 hp _ _ _
    exact (List.perm_nil.mp hp.symm).symm
  | cons a t1 ih =>
    intro l2 hp h1 h2 hanti
    cases l2 with
    | nil => exact absurd (List.perm_nil.mp hp) (List.cons_ne_nil a t1)
    | cons b t2 =>
      rw [List.pairwise_cons] at h1 h2
      have hab : a = b := by
        have ha : a ∈ b :: t2 := hp.mem_iff.mp (List.mem_cons_self a t1)
        have hb : b ∈ a :: t1 := hp.mem_iff.mpr (List.mem_cons_self b t2)
        rcases List.mem_cons.mp ha with ha | ha
        · exact ha
        · rcases List.mem_cons.mp hb with hb' | hb'
          · exact hb'.symm
          · exact hanti a (List.mem_cons_self a t1) b hb (h1.1 b hb') (h2.1 a ha)
      subst hab
      have hp' : t1.Perm t2 := List.Perm.cons_inv hp
      rw [ih t2 hp' h1.2 h2.2
        (fun x hx y hy => hanti x (List.mem_cons_of_mem a hx) y (List.mem_cons_of_mem a hy))]

/-- Not `less` in both directions: the two entries have the same Date and the
same lastModified. -/
theorem entryLess_false_antisymm (a b : recentEntry) (h1 : entryLess a b = false)
    (h2 : entryLess b a = false) : a.Date = b.Date ∧ a.lastModified = b.lastModified := by
  rw [entryLess_false_iff] at h1 h2
  rcases h1 with h1 | ⟨h1, h1'⟩
  · rcases h2 with h2 | ⟨h2, _⟩
    · exact absurd h2 (lt_asymm h1)
    · rw [h2] at h1; exact absurd h1 (lt_irrefl _)
  · rcases h2 with h2 | ⟨_, h2'⟩
    · rw [h1] at h2; exact absurd h2 (lt_irrefl _)
    · exact ⟨h1, le_antisymm h2' h1'⟩

/-- On a list without two different entries of the same Date and
lastModified, every sort that meets the contract returns the same slice. -/
theorem sortSlice_unique
    (f g : (recentEntry → recentEntry → Bool) → List recentEntry → List recentEntry)
    (l : List recentEntry)
    (hf : SortContract f entryLess) (hg : SortContract g entryLess)
    (hties : ∀ a ∈ l, ∀ b ∈ l, a.Date = b.Date → a.lastModified = b.lastModified → a = b) :
    f entryLess l = g entryLess l := by
  apply eq_of_perm_of_pairwise (fun a b => entryLess b a = false)
  · exact (hf l).1.trans (hg l).1.symm
  · exact (hf l).2
  · exact (hg l).2
  · intro a ha b hb hab hba
    obtain ⟨hd, hm⟩ := entryLess_false_antisymm a b hba hab
    exact hties a ((hf l).1.mem_iff.mp ha) b ((hf l).1.mem_iff.mp hb) hd hm

/-! ## The claims -/

/-- C1: when the usernames and every user's entries are fetched without
error, the handler answers 200 and the items it encodes are ordered newest
first: of two items, the one placed first has the greater Date, or the same
Date and a lastModified that is not smaller (string comparison); and an item
with a greater Date than another one is always placed before it. -/
theorem C1_feed_is_newest_first
    (sortSlice : (recentEntry → recentEntry → Bool) → List recentEntry → List recentEntry)
    (s : Datastore) (r : Request) (users : List GoString)
    (userEntries : GoString → List JournalEntry)
    (hsort : SortContract sortSlice entryLess)
    (hUsers : s.Users = Except.ok users)
    (hAll : ∀ u ∈ users, s.GetEntries u = Except.ok (userEntries u)) :
    ∃ out, recentEntriesGet sortSlice s r =
        some { status := StatusOK, body := Body.json (some out) } ∧
      (∀ (i j : Nat) (a b : recentEntry), i < j → out[i]? = some a → out[j]? = some b →
        goStringLess b.Date a.Date = true ∨
          (a.Date = b.Date ∧ goStringLess a.lastModified b.lastModified = false)) ∧
      (∀ (i j : Nat) (a b : recentEntry), out[i]? = some a → out[j]? = some b →
        goStringLess b.Date a.Date = true → i < j) := by
  have hmerged := collectEntries_ok s userEntries users [] hAll
  refine ⟨_, recentEntriesGet_of_collected sortSlice s r users _ hUsers hmerged, ?_⟩
  generalize ([] ++ users.flatMap
    (fun u => ((userEntries u).filter isRelevant).map (authored u))) = merged
  have hpw : ((sortSlice entryLess merged).reverse.take maxEntries).Pairwise
      (fun a b => entryLess a b = false) :=
    List.Pairwise.sublist (List.take_sublist _ _)
      (List.pairwise_reverse.mpr (hsort merged).2)
  generalize (sortSlice entryLess merged).reverse.take maxEntries = out at hpw
  rw [List.pairwise_iff_getElem] at hpw
  have key : ∀ (i j : Nat) (a b : recentEntry), i < j → out[i]? = some a →
      out[j]? = some b → entryLess a b = false := by
    intro i j a b hij ha hb
    obtain ⟨hi, rfl⟩ := List.getElem?_eq_some.mp ha
    obtain ⟨hj, rfl⟩ := List.getElem?_eq_some.mp hb
    exact hpw i j hi hj hij
  refine ⟨?_, ?_⟩
  · intro i j a b hij ha hb
    have h := (entryLess_false_iff a b).mp (key i j a b hij ha hb)
    rcases h with h | ⟨h1, h2⟩
    · exact Or.inl ((goStringLess_iff _ _).mpr h)
    · exact Or.inr ⟨h1, (goStringLess_false_iff _ _).mpr h2⟩
  · intro i j a b ha hb hlt
    rw [goStringLess_iff] at hlt
    by_contra hij
    rcases Nat.lt_or_eq_of_le (Nat.le_of_not_lt hij) with hji | hji
    · rcases (entryLess_false_iff b a).mp (key j i b a hji hb ha) with h | ⟨h1, _⟩
      · exact lt_asymm h hlt
      · rw [h1] at hlt; exact lt_irrefl _ hlt
    · rw [hji, ha] at hb
      cases hb
      exact lt_irrefl _ hlt

/-- C1, on the entries of the test that places new dates ahead of old ones. -/
theorem C1_feed_is_newest_first_witness :
    SortContract insertionSort entryLess ∧
    ∃ out, recentEntriesGet insertionSort (mockDatastore newDatesEntries [str "bob"])
        { start := str "0", limit := str "15" } =
        some { status := StatusOK, body := Body.json (some out) } ∧
      (∀ (i j : Nat) (a b : recentEntry), i < j → out[i]? = some a → out[j]? = some b →
        goStringLess b.Date a.Date = true ∨
          (a.Date = b.Date ∧ goStringLess a.lastModified b.lastModified = false)) ∧
      (∀ (i j : Nat) (a b : recentEntry), out[i]? = some a → out[j]? = some b →
        goStringLess b.Date a.Date = true → i < j) :=
  ⟨insertionSort_entryLess,
    C1_feed_is_newest_first insertionSort (mockDatastore newDatesEntries [str "bob"])
      { start := str "0", limit := str "15" } [str "bob"] (fun _ => newDatesEntries)
      insertionSort_entryLess rfl (fun _ _ => rfl)⟩

/-- C2: the relevance filter. When every fetch succeeds, an entry of a listed
user is in the merged collection exactly when its Markdown has at least 30
bytes; and whatever the datastore and the request, every item of a response
has a Markdown of at least 30 bytes. -/
theorem C2_relevance_filter
    (sortSlice : (recentEntry → recentEntry → Bool) → List recentEntry → List recentEntry)
    (s : Datastore) (hsort : SortContract sortSlice entryLess) :
    (∀ (users : List GoString) (userEntries : GoString → List JournalEntry),
      (∀ u ∈ users, s.GetEntries u = Except.ok (userEntries u)) →
      ∃ merged, collectEntries s users [] = Except.ok merged ∧
        ∀ u ∈ users, ∀ e ∈ userEntries u,
          (({ Author := u, Date := e.Date, lastModified := e.LastModified,
              Markdown := e.Markdown } : recentEntry) ∈ merged ↔
            30 ≤ goLen e.Markdown)) ∧
    (∀ (r : Request) (status : Nat) (out : List recentEntry),
      recentEntriesGet sortSlice s r =
        some { status := status, body := Body.json (some out) } →
      ∀ e ∈ out, 30 ≤ goLen e.Markdown) := by
  refine ⟨?_, ?_⟩
  · intro users userEntries hAll
    refine ⟨_, collectEntries_ok s userEntries users [] hAll, ?_⟩
    intro u hu e he
    change authored u e ∈ _ ↔ _
    rw [List.nil_append, List.mem_flatMap]
    constructor
    · rintro ⟨v, _, hv⟩
      obtain ⟨j, hj, hje⟩ := List.mem_map.mp hv
      have hrel : isRelevant j = true := (List.mem_filter.mp hj).2
      simp only [isRelevant, Bool.not_eq_true', decide_eq_false_iff_not, not_lt,
        minimumRelevantLength] at hrel
      have hmd : j.Markdown = e.Markdown := congrArg recentEntry.Markdown hje
      rw [← hmd]
      exact hrel
    · intro hlen
      refine ⟨u, hu, List.mem_map.mpr ⟨e, List.mem_filter.mpr ⟨he, ?_⟩, rfl⟩⟩
      simp only [isRelevant, Bool.not_eq_true', decide_eq_false_iff_not, not_lt,
        minimumRelevantLength]
      exact hlen
  · intro r status out hresp e he
    cases hU : s.Users with
    | error err =>
      simp only [recentEntriesGet, hU, httpError] at hresp
      cases hresp
    | ok users =>
      cases hC : collectEntries s users [] with
      | error err =>
        simp only [recentEntriesGet, hU, hC, httpError] at hresp
        cases hresp
      | ok merged =>
        rw [recentEntriesGet_of_collected sortSlice s r users merged hU hC] at hresp
        injection hresp with hresp
        injection hresp with _ hbody
        injection hbody with hbody
        injection hbody with hout
        subst hout
        have hmem : e ∈ merged :=
          (hsort merged).1.mem_iff.mp (List.mem_reverse.mp (List.mem_of_mem_take he))
        exact collectEntries_relevant s users [] merged hC (by simp) e hmem

/-- C2, on one user with an entry of 29 bytes and one of 30 bytes. -/
theorem C2_relevance_filter_witness :
    SortContract insertionSort entryLess ∧
    (∃ merged, collectEntries (mockDatastore boundaryEntries [str "bob"]) [str "bob"] [] =
        Except.ok merged ∧
      ∀ u ∈ [str "bob"], ∀ e ∈ boundaryEntries,
        (({ Author := u, Date := e.Date, lastModified := e.LastModified,
            Markdown := e.Markdown } : recentEntry) ∈ merged ↔
          30 ≤ goLen e.Markdown)) ∧
    (∀ e ∈ [({ Author := str "bob", Date := str "2019-05-03",
               lastModified := str "2019-05-16T00:00:00.000Z",
               Markdown := str "Read the news today... Oh boy!" } : recentEntry)],
      30 ≤ goLen e.Markdown) :=
  ⟨insertionSort_entryLess,
    (C2_relevance_filter insertionSort (mockDatastore boundaryEntries [str "bob"])
      insertionSort_entryLess).1 [str "bob"] (fun _ => boundaryEntries) (fun _ _ => rfl),
    (C2_relevance_filter insertionSort (mockDatastore boundaryEntries [str "bob"])
      insertionSort_entryLess).2 { start := str "0", limit := str "15" } StatusOK _ (by decide)⟩

/-- C3: the handler does not window the feed. On the six entries of the
pagination test the request start=1, limit=3 is answered with all six items,
not with those ranked 2nd to 4th, and the request start=500, limit=5 is
answered with all six items as well, not with the empty list. -/
theorem C3_window_not_applied :
    recentEntriesGet insertionSort (mockDatastore paginationEntries [str "bob"])
        { start := str "1", limit := str "3" } =
      some { status := StatusOK, body := Body.json (some paginationFeed) } ∧
    paginationFeed ≠ (paginationFeed.drop 1).take 3 ∧
    recentEntriesGet insertionSort (mockDatastore paginationEntries [str "bob"])
        { start := str "500", limit := str "5" } =
      some { status := StatusOK, body := Body.json (some paginationFeed) } ∧
    paginationFeed ≠ [] := by
  decide

/-- C4, as stated, fails on a feed of sixteen entries: the request start=0,
limit=500 is answered with the fifteen newest entries, not with all sixteen.
The sixteen dates differ, so this is the answer under every sort that meets
the contract of `sort.Slice`. -/
theorem C4_counterexample_sixteen_entries :
    recentEntriesGet insertionSort (mockDatastore sixteenEntries [str "bob"])
        { start := str "0", limit := str "500" } =
      some { status := StatusOK, body := Body.json (some (sixteenFeed.take 15)) } ∧
    reverseEntries (insertionSort entryLess (sixteenEntries.map (authored (str "bob")))) =
      some sixteenFeed ∧
    sixteenFeed.length = 16 ∧
    sixteenFeed.take 15 ≠ sixteenFeed ∧
    (∀ sortSlice : (recentEntry → recentEntry → Bool) → List recentEntry → List recentEntry,
      SortContract sortSlice entryLess →
      recentEntriesGet sortSlice (mockDatastore sixteenEntries [str "bob"])
          { start := str "0", limit := str "500" } =
        some { status := StatusOK, body := Body.json (some (sixteenFeed.take 15)) }) := by
  refine ⟨by decide, by decide, by decide, by decide, ?_⟩
  intro sortSlice hsort
  have hties : ∀ a ∈ sixteenEntries.map (authored (str "bob")),
      ∀ b ∈ sixteenEntries.map (authored (str "bob")),
        a.Date = b.Date → a.lastModified = b.lastModified → a = b := by
    decide
  rw [recentEntriesGet_of_collected sortSlice (mockDatastore sixteenEntries [str "bob"])
      { start := str "0", limit := str "500" } [str "bob"]
      (sixteenEntries.map (authored (str "bob"))) rfl rfl,
    sortSlice_unique sortSlice insertionSort _ hsort insertionSort_entryLess hties]
  decide

/-- C4, amended: a limit that is not smaller than the feed is accepted, the
answer is 200, and with start 0 it carries the first 15 entries of the sorted
feed, which is the whole sorted feed when the feed has at most 15 entries. -/
theorem C4_large_limit_is_capped
    (sortSlice : (recentEntry → recentEntry → Bool) → List recentEntry → List recentEntry)
    (s : Datastore) (r : Request) (users : List GoString) (merged : List recentEntry)
    (l : Nat)
    (hUsers : s.Users = Except.ok users)
    (hmerged : collectEntries s users [] = Except.ok merged)
    (_hstart : r.start = str "0")
    (_hlimit : r.limit = str (Nat.repr l))
    (_hl : merged.length ≤ l) :
    recentEntriesGet sortSlice s r =
        some { status := StatusOK,
               body := Body.json (some ((sortSlice entryLess merged).reverse.take 15)) } ∧
      ((sortSlice entryLess merged).reverse.length ≤ 15 →
        recentEntriesGet sortSlice s r =
          some { status := StatusOK,
                 body := Body.json (some (sortSlice entryLess merged).reverse) }) := by
  have h := recentEntriesGet_of_collected sortSlice s r users merged hUsers hmerged
  refine ⟨h, ?_⟩
  intro hn
  rw [h, maxEntries, List.take_of_length_le hn]

/-- C4 amended, on the six entries of the pagination test with start=0 and
limit=500. -/
theorem C4_large_limit_is_capped_witness :
    recentEntriesGet insertionSort (mockDatastore paginationEntries [str "bob"])
        { start := str "0", limit := str "500" } =
        some { status := StatusOK,
               body := Body.json (some ((insertionSort entryLess
                 (paginationEntries.map (authored (str "bob")))).reverse.take 15)) } ∧
      ((insertionSort entryLess
          (paginationEntries.map (authored (str "bob")))).reverse.length ≤ 15 →
        recentEntriesGet insertionSort (mockDatastore paginationEntries [str "bob"])
            { start := str "0", limit := str "500" } =
          some { status := StatusOK,
                 body := Body.json (some (insertionSort entryLess
                   (paginationEntries.map (authored (str "bob")))).reverse) }) :=
  C4_large_limit_is_capped insertionSort (mockDatastore paginationEntries [str "bob"])
    { start := str "0", limit := str "500" } [str "bob"] (paginationEntries.map (authored (str "bob"))) 500
    rfl rfl rfl (by decide) (by decide)

/-- C5: the handler never reads start. On the six entries of the pagination
test the requests with start=invalid-start-value and with start=-5 are
answered 200 with the feed, not 400. -/
theorem C5_invalid_start_not_rejected :
    recentEntriesGet insertionSort (mockDatastore paginationEntries [str "bob"])
        { start := str "invalid-start-value", limit := str "3" } =
      some { status := StatusOK, body := Body.json (some paginationFeed) } ∧
    recentEntriesGet insertionSort (mockDatastore paginationEntries [str "bob"])
        { start := str "-5", limit := str "3" } =
      some { status := StatusOK, body := Body.json (some paginationFeed) } ∧
    StatusOK ≠ StatusBadRequest := by
  decide

/-- C6: the handler never reads limit. On the six entries of the pagination
test the requests with limit=invalid-limit-value, limit=-10 and limit=0 are
answered 200 with the feed, not 400. -/
theorem C6_invalid_limit_not_rejected :
    recentEntriesGet insertionSort (mockDatastore paginationEntries [str "bob"])
        { start := str "2", limit := str "invalid-limit-value" } =
      some { status := StatusOK, body := Body.json (some paginationFeed) } ∧
    recentEntriesGet insertionSort (mockDatastore paginationEntries [str "bob"])
        { start := str "2", limit := str "-10" } =
      some { status := StatusOK, body := Body.json (some paginationFeed) } ∧
    recentEntriesGet insertionSort (mockDatastore paginationEntries [str "bob"])
        { start := str "2", limit := str "0" } =
      some { status := StatusOK, body := Body.json (some paginationFeed) } ∧
    StatusOK ≠ StatusBadRequest := by
  decide

/-- When every user's fetch succeeds and returns only entries below the
threshold, the loops leave `entries` as it was. -/
theorem collectEntries_none_relevant (s : Datastore) (users : List GoString) :
    ∀ entries : List recentEntry,
      (∀ u ∈ users, ∃ es, s.GetEntries u = Except.ok es ∧
        ∀ e ∈ es, goLen e.Markdown < minimumRelevantLength) →
      collectEntries s users entries = Except.ok entries := by
  induction users with
  | nil => intro entries _; rfl
  | cons u rest ih =>
    intro entries h
    obtain ⟨es, hes, hshort⟩ := h u (List.mem_cons_self u rest)
    simp only [collectEntries]
    rw [hes]
    simp only
    have hnone : es.filter isRelevant = [] := by
      rw [List.filter_eq_nil_iff]
      intro e he
      simp [isRelevant, hshort e he]
    rw [appendRelevant_eq, hnone, List.map_nil, List.append_nil]
    exact ih entries (fun v hv => h v (List.mem_cons_of_mem u hv))

/-- C7: when the user list is empty, or every user's fetch succeeds and
returns only entries of fewer than 30 bytes, the handler answers 200 and
encodes an empty slice that is not nil: the body is the JSON array `[]`
followed by a newline, not `null`. -/
theorem C7_empty_feed_is_empty_array
    (sortSlice : (recentEntry → recentEntry → Bool) → List recentEntry → List recentEntry)
    (s : Datastore) (r : Request) (users : List GoString) (quote : GoString → String)
    (hsort : SortContract sortSlice entryLess)
    (hUsers : s.Users = Except.ok users)
    (hNone : ∀ u ∈ users, ∃ es, s.GetEntries u = Except.ok es ∧
      ∀ e ∈ es, goLen e.Markdown < 30) :
    ∃ resp, recentEntriesGet sortSlice s r = some resp ∧
      resp.status = StatusOK ∧
      resp.body = Body.json (some []) ∧
      resp.body ≠ Body.json none ∧
      resp.wire quote = "[]\n" ∧
      resp.wire quote ≠ "null\n" := by
  have hmerged := collectEntries_none_relevant s users [] hNone
  have hnil : sortSlice entryLess [] = [] := List.perm_nil.mp (hsort []).1
  have hresp := recentEntriesGet_of_collected sortSlice s r users [] hUsers hmerged
  rw [hnil] at hresp
  have hwire : Response.wire quote
      { status := StatusOK,
        body := Body.json (some (List.take maxEntries ([] : List recentEntry).reverse)) } =
      "[]\n" := rfl
  refine ⟨_, hresp, rfl, rfl, ?_, hwire, ?_⟩
  · simp
  · rw [hwire]
    decide

/-- C7, on one user whose only entry has 9 bytes. -/
theorem C7_empty_feed_is_empty_array_witness :
    SortContract insertionSort entryLess ∧
    ∃ resp, recentEntriesGet insertionSort (mockDatastore shortEntries [str "bob"])
        { start := str "0", limit := str "15" } = some resp ∧
      resp.status = StatusOK ∧
      resp.body = Body.json (some []) ∧
      resp.body ≠ Body.json none ∧
      resp.wire (fun _ => "") = "[]\n" ∧
      resp.wire (fun _ => "") ≠ "null\n" :=
  ⟨insertionSort_entryLess,
    C7_empty_feed_is_empty_array insertionSort (mockDatastore shortEntries [str "bob"])
      { start := str "0", limit := str "15" } [str "bob"] (fun _ => "") insertionSort_entryLess rfl
      (fun _ _ => ⟨shortEntries, rfl, by decide⟩)⟩

/-- C8: the handler answers 500 exactly when listing the usernames fails or
the fetch of some listed user fails; the answer is then the plain-text error
and holds no entry; otherwise the answer is 200 with a JSON list. This holds
for every request. -/
theorem C8_fail_fast
    (sortSlice : (recentEntry → recentEntry → Bool) → List recentEntry → List recentEntry)
    (s : Datastore) (r : Request) :
    ((∃ body, recentEntriesGet sortSlice s r =
        some { status := StatusInternalServerError, body := body }) ↔
      ((∃ err, s.Users = Except.error err) ∨
        ∃ users, s.Users = Except.ok users ∧
          ∃ u ∈ users, ∃ err, s.GetEntries u = Except.error err)) ∧
    (((∃ err, s.Users = Except.error err) ∨
        ∃ users, s.Users = Except.ok users ∧
          ∃ u ∈ users, ∃ err, s.GetEntries u = Except.error err) →
      recentEntriesGet sortSlice s r =
        some { status := StatusInternalServerError,
               body := Body.text "Failed to retrieve users" }) ∧
    (¬ ((∃ err, s.Users = Except.error err) ∨
        ∃ users, s.Users = Except.ok users ∧
          ∃ u ∈ users, ∃ err, s.GetEntries u = Except.error err) →
      ∃ out, recentEntriesGet sortSlice s r =
        some { status := StatusOK, body := Body.json (some out) }) := by
  cases hU : s.Users with
  | error e =>
    have hresp : recentEntriesGet sortSlice s r =
        some { status := StatusInternalServerError,
               body := Body.text "Failed to retrieve users" } := by
      simp only [recentEntriesGet, hU, httpError]
    refine ⟨⟨fun _ => Or.inl ⟨e, rfl⟩, fun _ => ⟨_, hresp⟩⟩, fun _ => hresp, ?_⟩
    intro hnot
    exact absurd (Or.inl ⟨e, rfl⟩) hnot
  | ok users =>
    cases hC : collectEntries s users [] with
    | error e =>
      have hfail : ∃ u ∈ users, ∃ err, s.GetEntries u = Except.error err :=
        (collectEntries_error_iff s users []).mp ⟨e, hC⟩
      have hresp : recentEntriesGet sortSlice s r =
          some { status := StatusInternalServerError,
                 body := Body.text "Failed to retrieve users" } := by
        simp only [recentEntriesGet, hU, hC, httpError]
      refine ⟨⟨fun _ => Or.inr ⟨users, rfl, hfail⟩, fun _ => ⟨_, hresp⟩⟩,
        fun _ => hresp, ?_⟩
      intro hnot
      exact absurd (Or.inr ⟨users, rfl, hfail⟩) hnot
    | ok merged =>
      have hresp := recentEntriesGet_of_collected sortSlice s r users merged hU hC
      have hnofail : ¬ ((∃ err, (Except.ok users : Except String (List GoString)) =
            Except.error err) ∨
          ∃ users', (Except.ok users : Except String (List GoString)) = Except.ok users' ∧
            ∃ u ∈ users', ∃ err, s.GetEntries u = Except.error err) := by
        rintro (⟨err, herr⟩ | ⟨users', husers, hfail⟩)
        · cases herr
        · cases husers
          obtain ⟨err, herr⟩ := (collectEntries_error_iff s users []).mpr hfail
          rw [hC] at herr
          cases herr
      refine ⟨⟨?_, fun h => absurd h hnofail⟩, fun h => absurd h hnofail,
        fun _ => ⟨_, hresp⟩⟩
      rintro ⟨body, hbody⟩
      rw [hresp] at hbody
      have hstatus := congrArg (Option.map Response.status) hbody
      simp [StatusOK, StatusInternalServerError] at hstatus

/-- C8, on a datastore where the fetch of the first user succeeds and that of
the second fails: the answer is the 500 error, without the first user's
entries. -/
theorem C8_fail_fast_witness :
    recentEntriesGet insertionSort failingDatastore { start := str "0", limit := str "15" } =
      some { status := StatusInternalServerError,
             body := Body.text "Failed to retrieve users" } :=
  (C8_fail_fast insertionSort failingDatastore { start := str "0", limit := str "15" }).2.1
    (Or.inr ⟨[str "alice", str "bob"], rfl, str "bob", by decide, "datastore unavailable", rfl⟩)

/-- C9: when every fetch succeeds, the collection the handler sorts is the
concatenation, in the order of the username list, of each user's entries of
at least 30 bytes, each with that username as Author and with Date,
lastModified and Markdown copied; its length is the sum over the users of the
number of their entries of at least 30 bytes. -/
theorem C9_merge_with_authorship
    (sortSlice : (recentEntry → recentEntry → Bool) → List recentEntry → List recentEntry)
    (s : Datastore) (r : Request) (users : List GoString)
    (userEntries : GoString → List JournalEntry)
    (hUsers : s.Users = Except.ok users)
    (hAll : ∀ u ∈ users, s.GetEntries u = Except.ok (userEntries u)) :
    ∃ merged, collectEntries s users [] = Except.ok merged ∧
      merged = users.flatMap (fun u =>
        ((userEntries u).filter (fun e => decide (30 ≤ goLen e.Markdown))).map
          (fun e => { Author := u, Date := e.Date, lastModified := e.LastModified,
                      Markdown := e.Markdown })) ∧
      merged.length =
        (users.map (fun u =>
          (userEntries u).countP (fun e => decide (30 ≤ goLen e.Markdown)))).sum ∧
      recentEntriesGet sortSlice s r =
        some { status := StatusOK,
               body := Body.json
                 (some ((sortSlice entryLess merged).reverse.take maxEntries)) } := by
  have hrel : isRelevant = fun e => decide (30 ≤ goLen e.Markdown) := by
    funext e
    rcases Nat.lt_or_ge (goLen e.Markdown) 30 with h | h
    · have h' : ¬ 30 ≤ goLen e.Markdown := by omega
      simp [isRelevant, minimumRelevantLength, h, h']
    · have h' : ¬ goLen e.Markdown < 30 := by omega
      simp [isRelevant, minimumRelevantLength, h, h']
  have hmerged := collectEntries_ok s userEntries users [] hAll
  rw [List.nil_append, hrel] at hmerged
  refine ⟨_, hmerged, rfl, ?_,
    recentEntriesGet_of_collected sortSlice s r users _ hUsers hmerged⟩
  rw [List.length_flatMap]
  congr 1
  apply List.map_congr_left
  intro u _
  simp [List.countP_eq_length_filter]

/-- C9, on two users who each have one entry of 29 bytes and one of 30. -/
theorem C9_merge_with_authorship_witness :
    ∃ merged, collectEntries (mockDatastore boundaryEntries [str "alice", str "bob"])
        [str "alice", str "bob"] [] = Except.ok merged ∧
      merged = [str "alice", str "bob"].flatMap (fun u =>
        (boundaryEntries.filter (fun e => decide (30 ≤ goLen e.Markdown))).map
          (fun e => { Author := u, Date := e.Date, lastModified := e.LastModified,
                      Markdown := e.Markdown })) ∧
      merged.length =
        ([str "alice", str "bob"].map (fun _ =>
          boundaryEntries.countP (fun e => decide (30 ≤ goLen e.Markdown)))).sum ∧
      recentEntriesGet insertionSort (mockDatastore boundaryEntries [str "alice", str "bob"])
          { start := str "0", limit := str "15" } =
        some { status := StatusOK,
               body := Body.json
                 (some ((insertionSort entryLess merged).reverse.take maxEntries)) } :=
  C9_merge_with_authorship insertionSort (mockDatastore boundaryEntries [str "alice", str "bob"])
    { start := str "0", limit := str "15" } [str "alice", str "bob"] (fun _ => boundaryEntries) rfl
    (fun _ _ => rfl)

/-- C10, as stated, fails on two entries that share Date and lastModified:
sorting them ascending and reversing puts the second entry first, sorting
them with the descending comparator leaves the first entry first. -/
theorem C10_counterexample_tied_entries :
    reverseEntries (insertionSort entryLess tiedEntries) = some tiedEntries.reverse ∧
    insertionSort entryGreater tiedEntries = tiedEntries ∧
    tiedEntries.reverse ≠ tiedEntries := by
  decide

/-- C10, amended: for every list, sorting ascending with the handler's
comparator and reversing, and sorting with the descending comparator, yield
rearrangements of one another that carry the same (Date, lastModified) pair at
every position; they are the same sequence when no two different entries of
the list share both Date and lastModified. -/
theorem C10_formulations_agree_up_to_ties
    (sortSlice : (recentEntry → recentEntry → Bool) → List recentEntry → List recentEntry)
    (l : List recentEntry)
    (hasc : SortContract sortSlice entryLess)
    (hdesc : SortContract sortSlice entryGreater) :
    ∃ out, reverseEntries (sortSlice entryLess l) = some out ∧
      out.Perm (sortSlice entryGreater l) ∧
      out.map (fun e => (e.Date, e.lastModified)) =
        (sortSlice entryGreater l).map (fun e => (e.Date, e.lastModified)) ∧
      ((∀ a ∈ l, ∀ b ∈ l, a.Date = b.Date → a.lastModified = b.lastModified → a = b) →
        out = sortSlice entryGreater l) := by
  refine ⟨_, reverseEntries_eq _, ?_, ?_, ?_⟩
  · exact ((List.reverse_perm _).trans (hasc l).1).trans (hdesc l).1.symm
  · have hperm : (sortSlice entryLess l).reverse.Perm (sortSlice entryGreater l) :=
      ((List.reverse_perm _).trans (hasc l).1).trans (hdesc l).1.symm
    have h1 : (sortSlice entryLess l).reverse.Pairwise (fun a b => entryLess a b = false) :=
      List.pairwise_reverse.mpr (hasc l).2
    have h2 : (sortSlice entryGreater l).Pairwise (fun a b => entryLess a b = false) :=
      (hdesc l).2
    apply eq_of_perm_of_pairwise
      (fun k1 k2 : GoString × GoString => k2.1 < k1.1 ∨ (k1.1 = k2.1 ∧ k2.2 ≤ k1.2))
    · exact hperm.map _
    · rw [List.pairwise_map]
      exact h1.imp (fun {a b} h => (entryLess_false_iff a b).mp h)
    · rw [List.pairwise_map]
      exact h2.imp (fun {a b} h => (entryLess_false_iff a b).mp h)
    · rintro ⟨d1, m1⟩ _ ⟨d2, m2⟩ _ h12 h21
      simp only at h12 h21
      rcases h12 with h12 | ⟨h12, h12'⟩
      · rcases h21 with h21 | ⟨h21, _⟩
        · exact absurd h21 (lt_asymm h12)
        · rw [h21] at h12; exact absurd h12 (lt_irrefl _)
      · rcases h21 with h21 | ⟨_, h21'⟩
        · rw [h12] at h21; exact absurd h21 (lt_irrefl _)
        · rw [h12, le_antisymm h21' h12']
  · intro hties
    have hmem : ∀ a, a ∈ (sortSlice entryLess l).reverse → a ∈ l := fun a ha =>
      (hasc l).1.mem_iff.mp (List.mem_reverse.mp ha)
    apply eq_of_perm_of_pairwise (fun a b => entryLess a b = false)
    · exact ((List.reverse_perm _).trans (hasc l).1).trans (hdesc l).1.symm
    · exact List.pairwise_reverse.mpr (hasc l).2
    · exact (hdesc l).2
    · intro a ha b hb hab hba
      obtain ⟨hd, hm⟩ := entryLess_false_antisymm a b hab hba
      exact hties a (hmem a ha) b (hmem b hb) hd hm

/-- C10 amended, on the four entries of the test that places new dates ahead
of old ones, two of which share the Date but not lastModified. -/
theorem C10_formulations_agree_up_to_ties_witness :
    SortContract insertionSort entryLess ∧
    SortContract insertionSort entryGreater ∧
    (∀ a ∈ newDatesEntries.map (authored (str "bob")),
      ∀ b ∈ newDatesEntries.map (authored (str "bob")),
        a.Date = b.Date → a.lastModified = b.lastModified → a = b) ∧
    ∃ out, reverseEntries (insertionSort entryLess (newDatesEntries.map (authored (str "bob")))) =
        some out ∧
      out.Perm (insertionSort entryGreater (newDatesEntries.map (authored (str "bob")))) ∧
      out.map (fun e => (e.Date, e.lastModified)) =
        (insertionSort entryGreater (newDatesEntries.map (authored (str "bob")))).map
          (fun e => (e.Date, e.lastModified)) ∧
      ((∀ a ∈ newDatesEntries.map (authored (str "bob")),
        ∀ b ∈ newDatesEntries.map (authored (str "bob")),
          a.Date = b.Date → a.lastModified = b.lastModified → a = b) →
        out = insertionSort entryGreater (newDatesEntries.map (authored (str "bob")))) :=
  ⟨insertionSort_entryLess, insertionSort_entryGreater, by decide,
    C10_formulations_agree_up_to_ties insertionSort (newDatesEntries.map (authored (str "bob")))
      insertionSort_entryLess insertionSort_entryGreater⟩

/-- C11: when every fetch succeeds, the handler answers 200 with at most 15
items: exactly the first min(15, n) items of the sorted feed, where the sorted
feed is the rearrangement of the merged collection ordered newest first and n
is its length; when n is at most 15 the answer is the whole sorted feed. -/
theorem C11_feed_cap
    (sortSlice : (recentEntry → recentEntry → Bool) → List recentEntry → List recentEntry)
    (s : Datastore) (r : Request) (users : List GoString)
    (userEntries : GoString → List JournalEntry)
    (hsort : SortContract sortSlice entryLess)
    (hUsers : s.Users = Except.ok users)
    (hAll : ∀ u ∈ users, s.GetEntries u = Except.ok (userEntries u)) :
    ∃ merged feed out,
      collectEntries s users [] = Except.ok merged ∧
      reverseEntries (sortSlice entryLess merged) = some feed ∧
      feed.Perm merged ∧
      feed.Pairwise (fun a b => entryLess a b = false) ∧
      recentEntriesGet sortSlice s r =
        some { status := StatusOK, body := Body.json (some out) } ∧
      out.length ≤ 15 ∧
      out.length = min 15 feed.length ∧
      out = feed.take (min 15 feed.length) ∧
      (feed.length ≤ 15 → out = feed) := by
  have hmerged := collectEntries_ok s userEntries users [] hAll
  generalize ([] ++ users.flatMap
    (fun u => ((userEntries u).filter isRelevant).map (authored u))) = merged at hmerged
  have hresp := recentEntriesGet_of_collected sortSlice s r users merged hUsers hmerged
  refine ⟨merged, (sortSlice entryLess merged).reverse,
    (sortSlice entryLess merged).reverse.take maxEntries, hmerged, reverseEntries_eq _,
    (List.reverse_perm _).trans (hsort merged).1,
    List.pairwise_reverse.mpr (hsort merged).2, hresp, ?_, ?_, ?_, ?_⟩
  · rw [List.length_take, maxEntries]
    exact Nat.min_le_left _ _
  · rw [List.length_take, maxEntries]
  · rw [maxEntries]
    rcases Nat.le_total 15 (sortSlice entryLess merged).reverse.length with h | h
    · rw [Nat.min_eq_left h]
    · rw [Nat.min_eq_right h, List.take_of_length_le h, List.take_of_length_le (le_refl _)]
  · intro h
    rw [maxEntries, List.take_of_length_le h]

/-- C11, on the sixteen entries of one user: the answer has fifteen items. -/
theorem C11_feed_cap_witness :
    SortContract insertionSort entryLess ∧
    ∃ merged feed out,
      collectEntries (mockDatastore sixteenEntries [str "bob"]) [str "bob"] [] =
        Except.ok merged ∧
      reverseEntries (insertionSort entryLess merged) = some feed ∧
      feed.Perm merged ∧
      feed.Pairwise (fun a b => entryLess a b = false) ∧
      recentEntriesGet insertionSort (mockDatastore sixteenEntries [str "bob"])
          { start := str "0", limit := str "15" } =
        some { status := StatusOK, body := Body.json (some out) } ∧
      out.length ≤ 15 ∧
      out.length = min 15 feed.length ∧
      out = feed.take (min 15 feed.length) ∧
      (feed.length ≤ 15 → out = feed) :=
  ⟨insertionSort_entryLess,
    C11_feed_cap insertionSort (mockDatastore sixteenEntries [str "bob"])
      { start := str "0", limit := str "15" } [str "bob"] (fun _ => sixteenEntries)
      insertionSort_entryLess rfl (fun _ _ => rfl)⟩

/-- The loop with the record of its swaps returns what the loop returns, and
records one swap per iteration, each at two positions of the slice. -/
theorem reverseLoopTrace_spec {α : Type} (k : Nat) :
    ∀ es : List α, 2 * k ≤ es.length →
      ∃ result swaps, reverseLoopTrace k es = some (result, swaps) ∧
        reverseLoop k es = some result ∧
        swaps.length = k ∧
        ∀ p ∈ swaps, 0 ≤ p.1 ∧ p.1 < (es.length : Int) ∧
          0 ≤ p.2 ∧ p.2 < (es.length : Int) ∧ p.2 = (es.length : Int) - 1 - p.1 := by
  induction k with
  | zero =>
    intro es _
    exact ⟨es, [], rfl, rfl, rfl, by simp⟩
  | succ k ih =>
    intro es hk
    have hi : k < es.length := by omega
    have hopp : es.length - 1 - k < es.length := by omega
    have hcast : (es.length : Int) - 1 - (k : Int) = ((es.length - 1 - k : Nat) : Int) := by
      omega
    obtain ⟨result, swaps, htrace, hloop, hlen, hin⟩ :=
      ih ((es.set k es[es.length - 1 - k]).set (es.length - 1 - k) es[k])
        (by simp only [List.length_set]; omega)
    simp only [List.length_set] at hin
    refine ⟨result, ((k : Int), (es.length : Int) - 1 - (k : Int)) :: swaps, ?_, ?_, ?_, ?_⟩
    · simp only [reverseLoopTrace]
      rw [hcast, swapAt_of_lt es k (es.length - 1 - k) hi hopp]
      simp only
      rw [htrace]
    · simp only [reverseLoop]
      rw [hcast, swapAt_of_lt es k (es.length - 1 - k) hi hopp]
      exact hloop
    · simp [hlen]
    · intro p hp
      rcases List.mem_cons.mp hp with hp | hp
      · subst hp
        refine ⟨by omega, by omega, by omega, by omega, rfl⟩
      · exact hin p hp

/-- C12: the reversal loop of the handler never indexes out of range and
turns every list into its exact reverse: the element at position k afterwards
is the element that was at position n-1-k; it performs exactly floor(n/2)
swaps, each of two positions within the list. -/
theorem C12_reversal_loop {α : Type} (es : List α) :
    ∃ result swaps,
      reverseEntries es = some result ∧
      reverseEntriesTrace es = some (result, swaps) ∧
      result = es.reverse ∧
      result.length = es.length ∧
      (∀ k : Nat, k < es.length →
        ∃ x, result[k]? = some x ∧ es[es.length - 1 - k]? = some x) ∧
      swaps.length = es.length / 2 ∧
      (∀ p ∈ swaps, 0 ≤ p.1 ∧ p.1 < (es.length : Int) ∧
        0 ≤ p.2 ∧ p.2 < (es.length : Int) ∧ p.2 = (es.length : Int) - 1 - p.1) := by
  obtain ⟨result, swaps, htrace, hloop, hlen, hin⟩ :=
    reverseLoopTrace_spec (es.length / 2) es (by omega)
  have hrev : reverseEntries es = some es.reverse := reverseEntries_eq es
  have hres : result = es.reverse := by
    have h : reverseEntries es = some result := hloop
    rw [hrev] at h
    exact (Option.some.inj h).symm
  subst hres
  refine ⟨es.reverse, swaps, hrev, htrace, rfl, List.length_reverse es, ?_, hlen, hin⟩
  intro k hk
  have hopp : es.length - 1 - k < es.length := by omega
  refine ⟨es[es.length - 1 - k], ?_, List.getElem?_eq_getElem hopp⟩
  rw [List.getElem?_reverse hk, List.getElem?_eq_getElem hopp]

/-- C12, on lists of length 0, 1, 4 and 5. -/
theorem C12_reversal_loop_witness :
    reverseEntriesTrace ([] : List Nat) = some ([], []) ∧
    reverseEntriesTrace [7] = some ([7], []) ∧
    reverseEntriesTrace [1, 2, 3, 4] = some ([4, 3, 2, 1], [(1, 2), (0, 3)]) ∧
    reverseEntriesTrace [1, 2, 3, 4, 5] = some ([5, 4, 3, 2, 1], [(1, 3), (0, 4)]) ∧
    ∃ result swaps,
      reverseEntries [1, 2, 3, 4, 5] = some result ∧
      reverseEntriesTrace [1, 2, 3, 4, 5] = some (result, swaps) ∧
      result = [1, 2, 3, 4, 5].reverse ∧
      result.length = [1, 2, 3, 4, 5].length ∧
      (∀ k : Nat, k < [1, 2, 3, 4, 5].length →
        ∃ x, result[k]? = some x ∧
          [1, 2, 3, 4, 5][[1, 2, 3, 4, 5].length - 1 - k]? = some x) ∧
      swaps.length = [1, 2, 3, 4, 5].length / 2 ∧
      (∀ p ∈ swaps, 0 ≤ p.1 ∧ p.1 < ([1, 2, 3, 4, 5].length : Int) ∧
        0 ≤ p.2 ∧ p.2 < ([1, 2, 3, 4, 5].length : Int) ∧
        p.2 = ([1, 2, 3, 4, 5].length : Int) - 1 - p.1) :=
  ⟨by decide, by decide, by decide, by decide, C12_reversal_loop [1, 2, 3, 4, 5]⟩

end WhatGotDone
